import Mathlib

/-!
Verification of the Bitbucket Server collection-engine helpers
(`backend/plugins/bitbucket_server/tasks`): query builders, response
decoders, pagination arithmetic and the seed-input cursor iterators,
shallowly embedded in Lean 4 from the Go source.

Modelling conventions:
* a `time.Time` value is a UTC Unix timestamp in whole seconds (`Nat`);
  `time.Format(time.RFC3339)` is implemented concretely (`formatRFC3339`);
* `url.Values` is a finite map modelled as a function `String → List String`;
  `Values.Set` replaces the whole value list, as in Go;
* Go's `json.Unmarshal` (external stdlib) is abstracted as a parameter
  `parse : String → Option α`; reading a response body is an `Except`
  already resolved in the modelled `HttpResponse`;
* Go's `url.Parse` / `url.Values.Query` (external stdlib) are modelled on
  strings: fragment cut at the first `#`, query after the first `?`,
  query pairs split on `&` (segments that are empty or contain `;` are
  skipped, as in Go's `ParseQuery`), key/value cut at the first `=`;
  percent-unescaping is the identity on the token alphabets involved and
  is not modelled;
* a Go runtime panic (out-of-range index) is an explicit outcome
  constructor, so that reachability of the panic can be stated.
-/

namespace BitbucketServer

/-- Structure `BitbucketServerApiParams` from the source: the scope of a run. -/
structure BitbucketServerApiParams where
  connectionId : Nat
  fullName : String
deriving DecidableEq, Repr

/-- The two fields of `api.ApiCollectorStateManager` read by this code:
the incremental flag and the optional watermark `Since` (Unix seconds UTC). -/
structure ApiCollectorStateManager where
  isIncremental : Bool
  since : Option Nat
deriving DecidableEq, Repr

/-- The page descriptor (`reqData.Pager`): current page and page size. -/
structure Pager where
  page : Int
  size : Int
deriving DecidableEq, Repr

/-- Two-digit zero padding, as in Go's time formatting. -/
def pad2 (n : Nat) : String :=
  if n < 10 then "0" ++ toString n else toString n

/-- Civil date from days since 1970-01-01 (proleptic Gregorian),
the standard era-based algorithm; valid for all `z : Nat`. -/
def civilFromDays (z : Nat) : Nat × Nat × Nat :=
  let z := z + 719468
  let era := z / 146097
  let doe := z % 146097
  let yoe := (doe - doe / 1460 + doe / 36524 - doe / 146096) / 365
  let y := yoe + era * 400
  let doy := doe - (365 * yoe + yoe / 4 - yoe / 100)
  let mp := (5 * doy + 2) / 153
  let d := doy - (153 * mp + 2) / 5 + 1
  let m := if mp < 10 then mp + 3 else mp - 9
  (if m ≤ 2 then y + 1 else y, m, d)

/-- Go's `t.Format(time.RFC3339)` for a UTC time given in Unix seconds. -/
def formatRFC3339 (secs : Nat) : String :=
  let days := secs / 86400
  let rem := secs % 86400
  let c := civilFromDays days
  toString c.1 ++ "-" ++ pad2 c.2.1 ++ "-" ++ pad2 c.2.2 ++ "T" ++
    pad2 (rem / 3600) ++ ":" ++ pad2 (rem % 3600 / 60) ++ ":" ++ pad2 (rem % 60) ++ "Z"

/-- Go `url.Values`: a map from key to list of values. -/
def UrlValues := String → List String

/-- Go `url.Values{}`, the empty map. -/
def UrlValues.empty : UrlValues := fun _ => []

/-- Go `query.Set(k, v)`: replaces the value list of `k` by the single value `v`. -/
def UrlValues.set (q : UrlValues) (k v : String) : UrlValues :=
  fun x => if x = k then [v] else q x

/-- The single error type standing for Go's `errors.Error` values produced
in this file, plus the two sentinel errors of the `api` helper package. -/
inductive ApiError where
  /-- Go `errors.Default.New(msg)` -/
  | defaultNew (msg : String)
  /-- Go `errors.Default.Wrap(err, msg)` -/
  | wrap (msg : String)
  /-- Go `errors.Unauthorized.New(msg)` -/
  | unauthorized (msg : String)
  /-- Sentinel `api.ErrIgnoreAndContinue` -/
  | ignoreAndContinue
  /-- Sentinel `api.ErrFinishCollect` -/
  | finishCollect
  /-- generic request failure raised by the api helper on a non-success
  status (spec-modelled, see `classifyStatus`) -/
  | generic (status : Nat)
deriving DecidableEq, Repr

/-- Function `GetQuery` (source lines 92-99): the base query builder.
Always returns `(query, nil)`. -/
def GetQuery (reqData : Pager) : Except ApiError UrlValues :=
  let query := UrlValues.empty
  let query := query.set "state" "all"
  let query := query.set "page" (toString reqData.page)
  let query := query.set "pagelen" (toString reqData.size)
  .ok query

/-- Function `GetQueryCreatedAndUpdated` (source lines 102-116): the incremental
variant; applied to the request data (the returned Go closure, applied). -/
def GetQueryCreatedAndUpdated (fields : String) (collectorWithState : ApiCollectorStateManager)
    (reqData : Pager) : Except ApiError UrlValues :=
  match GetQuery reqData with
  | .error e => .error e
  | .ok query =>
    let query := query.set "fields" fields
    let query := query.set "sort" "created_on"
    match collectorWithState.since with
    | some t => .ok (query.set "q" ("updated_on>=" ++ formatRFC3339 t))
    | none => .ok query

/-- Function `GetQueryFields` (source lines 118-128): the field-selection variant. -/
def GetQueryFields (fields : String) (reqData : Pager) : Except ApiError UrlValues :=
  match GetQuery reqData with
  | .error e => .error e
  | .ok query => .ok (query.set "fields" fields)

/-- The modelled `http.Response`: the originating request URL and the
body read, which either succeeds with the raw bytes (a string) or fails
with an I/O error message (`io.ReadAll` failure). -/
structure HttpResponse where
  url : String
  body : Except String String
deriving Repr

/-- Function `decodeResponse` (source lines 75-90), generic over the external
`json.Unmarshal` target, abstracted as `parse`. A Go `*http.Response`
is `Option HttpResponse` (`none` is the nil pointer). -/
def decodeResponse (parse : String → Option α) (res : Option HttpResponse) :
    Except ApiError α :=
  match res with
  | none => .error (.defaultNew "res is nil")
  | some r =>
    match r.body with
    | .error _ => .error (.wrap ("error reading response from " ++ r.url))
    | .ok resBody =>
      match parse resBody with
      | none => .error (.wrap ("error decoding response from " ++ r.url ++
          ": raw response: " ++ resBody))
      | some message => .ok message

/-- The result of Go's `url.Parse` that this code reads: the raw query
string (`u.RawQuery`). -/
structure ParsedUrl where
  rawQuery : String
deriving DecidableEq, Repr

/-- Cut a character list at the first occurrence of `c`: `none` when `c`
is absent, otherwise the parts before and after the first occurrence. -/
def cutAtChar (c : Char) : List Char → Option (List Char × List Char)
  | [] => none
  | x :: xs =>
    if x = c then some ([], xs)
    else
      match cutAtChar c xs with
      | none => none
      | some (a, b) => some (x :: a, b)

/-- Cut a string at the first occurrence of the separator character, as
Go's `strings.Cut`: (before, after); the whole string and "" when the
separator is absent. -/
def stringCut (s : String) (c : Char) : String × String :=
  match cutAtChar c s.data with
  | none => (s, "")
  | some (a, b) => (⟨a⟩, ⟨b⟩)

/-- Split a character list on every occurrence of `c` (Go
`strings.Split` on a one-character separator). -/
def splitOnChar (c : Char) : List Char → List (List Char)
  | [] => [[]]
  | x :: xs =>
    let r := splitOnChar c xs
    if x = c then [] :: r
    else
      match r with
      | [] => [[x]]
      | h :: t => (x :: h) :: t

/-- Go's `url.Parse`, reduced to what this code consumes: fails on ASCII
control characters, otherwise drops the fragment (after the first `#`)
and takes the raw query as everything after the first `?`. -/
def urlParse (s : String) : Option ParsedUrl :=
  if s.data.any (fun c => c.toNat < 32 || c.toNat = 127) then none
  else
    let noFrag := (stringCut s '#').1
    some ⟨(stringCut noFrag '?').2⟩

/-- Go's `url.ParseQuery` on a raw query string, as called (through
`u.Query()`) by `GetNextPageCustomData`: pairs split on `&`, segments
that are empty or contain `;` are skipped, key/value cut at the first
`=`; unescaping not modelled (identity on the tokens involved). -/
def parseQuery (raw : String) : List (String × String) :=
  (splitOnChar '&' raw.data).filterMap fun seg =>
    if seg = [] || seg.any (fun c => c = ';') then none
    else some (stringCut ⟨seg⟩ '=')

/-- Indexing `m[key]` on the decoded query map: all values bound to `key`, in
order of appearance (Go appends per key in input order). -/
def queryLookup (kvs : List (String × String)) (key : String) : List String :=
  (kvs.filter (fun kv => kv.1 = key)).map (fun kv => kv.2)

/-- The four possible outcomes of `GetNextPageCustomData`, with the Go
runtime panic of the unguarded `[0]` index an explicit constructor. -/
inductive NextPageOutcome where
  /-- an `errors.Error` returned through the error result -/
  | err (e : ApiError)
  /-- the pair of empty-string custom data and `api.ErrFinishCollect`: the end-of-collection sentinel -/
  | finish
  /-- the next page token returned as custom data -/
  | token (s : String)
  /-- runtime panic: index out of range on `u.Query()[page][0]` -/
  | panicked
deriving DecidableEq, Repr

/-- Function `GetNextPageCustomData` (source lines 130-146); `parse` abstracts the
`json.Unmarshal` of the body into the struct holding the `next` field. -/
def GetNextPageCustomData (parse : String → Option String)
    (prevPageResponse : Option HttpResponse) : NextPageOutcome :=
  match decodeResponse parse prevPageResponse with
  | .error e => .err e
  | .ok next =>
    if next = "" then .finish
    else
      match urlParse next with
      | none => .err (.wrap "url parse error")
      | some u =>
        match queryLookup (parseQuery u.rawQuery) "page" with
        | [] => .panicked
        | v :: _ => .token v

/-- Structure `BitbucketServerPagination` (source lines 52-60), the envelope;
`values` elements are opaque. `Size` is non-negative here (the claims
range over non-negative sizes; Go division and mod on non-negative
ints agree with Nat division and mod). -/
structure BitbucketServerPagination where
  values : List String
  limit : Nat
  size : Nat
  page : Nat
  start : Nat
  next : String
  isLastPage : Bool
deriving DecidableEq, Repr

/-- The page-count computation of `GetTotalPagesFromResponse`
(source lines 154-157). -/
def totalPages (size pageSize : Nat) : Nat :=
  let pages := size / pageSize
  if size % pageSize > 0 then pages + 1 else pages

/-- Function `GetTotalPagesFromResponse` (source lines 148-159): the envelope
decode (`api.UnmarshalResponse`, external helper) is abstracted as the
already-resolved `Except`; on success the page count is computed. -/
def GetTotalPagesFromResponse (decoded : Except ApiError BitbucketServerPagination)
    (pageSize : Nat) : Except ApiError Nat :=
  match decoded with
  | .error e => .error e
  | .ok body => .ok (totalPages body.size pageSize)

/-- Function `ignoreHTTPStatus404` (source lines 245-253): `none` means the Go
function returned `nil`. -/
def ignoreHTTPStatus404 (statusCode : Nat) : Option ApiError :=
  if statusCode = 401 then
    some (.unauthorized "authentication failed, please check your AccessToken")
  else if statusCode = 404 then some .ignoreAndContinue
  else none

/-- A success (2xx) HTTP status. -/
def successStatus (statusCode : Nat) : Prop := 200 ≤ statusCode ∧ statusCode < 300

instance (s : Nat) : Decidable (successStatus s) := by
  unfold successStatus; infer_instance

/-- Modelled from the spec: the api helper's status handling downstream of
`ignoreHTTPStatus404` is not under src/; per the spec, after the plugin
callback declines to classify a status, any other non-success status is
"propagated as a generic request failure". The full classification is the
callback first, then the generic non-success check. -/
def classifyStatus (statusCode : Nat) : Option ApiError :=
  match ignoreHTTPStatus404 statusCode with
  | some e => some e
  | none => if successStatus statusCode then none else some (.generic statusCode)

/-- A `dal.Clause`, restricted to the clause shapes built in this file. -/
inductive Clause where
  | select (cols : String)
  | fromTable (t : String)
  /-- Clause `dal.Where("<x>.repo_id = ? and <x>.connection_id = ?", fullName, connectionId)` -/
  | whereScope (sql : String) (repoId : String) (connectionId : Nat)
  /-- Clause `dal.Where("bitbucket_updated_at > ?", *since)` -/
  | whereUpdatedAfter (t : Nat)
deriving DecidableEq, Repr

/-- The incremental clause appended by each iterator constructor
(`if collectorWithState.IsIncremental && collectorWithState.Since != nil`). -/
def incrementalClauses (st : ApiCollectorStateManager) : List Clause :=
  match st.isIncremental, st.since with
  | true, some t => [.whereUpdatedAfter t]
  | _, _ => []

/-- The clause list built by `GetBranchesIterator` (source lines 176-186). -/
def GetBranchesIteratorClauses (params : BitbucketServerApiParams)
    (st : ApiCollectorStateManager) : List Clause :=
  [.select "bb.branch",
   .fromTable "_tool_bitbucket_server_branches bb",
   .whereScope "bb.repo_id = ? and bb.connection_id = ?" params.fullName params.connectionId]
  ++ incrementalClauses st

/-- The clause list built by `GetCommitsIterator` (source lines 200-210). -/
def GetCommitsIteratorClauses (params : BitbucketServerApiParams)
    (st : ApiCollectorStateManager) : List Clause :=
  [.select "bc.commit_sha",
   .fromTable "_tool_bitbucket_server_commits bc",
   .whereScope "bc.repo_id = ? and bc.connection_id = ?" params.fullName params.connectionId]
  ++ incrementalClauses st

/-- The clause list built by `GetPullRequestsIterator` (source lines 224-234). -/
def GetPullRequestsIteratorClauses (params : BitbucketServerApiParams)
    (st : ApiCollectorStateManager) : List Clause :=
  [.select "bpr.bitbucket_id",
   .fromTable "_tool_bitbucket_server_pull_requests bpr",
   .whereScope "bpr.repo_id = ? and bpr.connection_id = ?" params.fullName params.connectionId]
  ++ incrementalClauses st

/-- A row of one of the `_tool_bitbucket_server_*` tables, with the
columns this code's clauses and projections touch; `payload` stands for
the projected column (`branch`, `commit_sha` or `bitbucket_id`). -/
structure ToolRow where
  repoId : String
  connectionId : Nat
  bitbucketUpdatedAt : Nat
  payload : String
deriving DecidableEq, Repr

/-- Whether a row satisfies one clause (`select`/`from` do not filter). -/
def clauseHolds (r : ToolRow) : Clause → Bool
  | .select _ => true
  | .fromTable _ => true
  | .whereScope _ repoId connectionId =>
      r.repoId = repoId && r.connectionId = connectionId
  | .whereUpdatedAfter t => t < r.bitbucketUpdatedAt

/-- Whether a row satisfies every clause of a query (WHERE conjunction). -/
def rowMatches (clauses : List Clause) (r : ToolRow) : Bool :=
  clauses.all (clauseHolds r)

/-- Evaluating a clause list over a table: the payloads of the matching
rows, in table order (the seed sequence the cursor iterator yields). -/
def runQuery (clauses : List Clause) (db : List ToolRow) : List String :=
  (db.filter (rowMatches clauses)).map (fun r => r.payload)

/-- The scope restriction of every iterator's base query. -/
def inScope (params : BitbucketServerApiParams) (r : ToolRow) : Bool :=
  r.repoId = params.fullName && r.connectionId = params.connectionId

/-! ## Helper lemmas -/

/-- Ceiling division characterized through quotient and remainder. -/
theorem totalPages_eq_ceil (size pageSize : Nat) (h : 0 < pageSize) :
    totalPages size pageSize = (size + pageSize - 1) / pageSize := by
  have hsize : pageSize * (size / pageSize) + size % pageSize = size :=
    Nat.div_add_mod size pageSize
  have hlt : size % pageSize < pageSize := Nat.mod_lt size h
  unfold totalPages
  rcases Nat.eq_zero_or_pos (size % pageSize) with hr | hr
  · have hsub : size + pageSize - 1 = pageSize * (size / pageSize) + (pageSize - 1) := by
      conv_lhs => rw [← hsize]
      omega
    rw [hsub, Nat.mul_add_div h, Nat.div_eq_of_lt (show pageSize - 1 < pageSize by omega),
      hr]
    simp
  · have hsub : size + pageSize - 1 = pageSize * (size / pageSize + 1) + (size % pageSize - 1) := by
      conv_lhs => rw [← hsize]
      rw [Nat.mul_add, Nat.mul_one]
      omega
    rw [hsub, Nat.mul_add_div h,
      Nat.div_eq_of_lt (show size % pageSize - 1 < pageSize by omega), if_pos hr]

/-! ## Claims -/

/-- C3: for all non-negative `Size` and all `PageSize > 0`,
`GetTotalPagesFromResponse` computes the total page count as
`Size/PageSize` rounded up (any nonzero remainder adds exactly one page,
never truncated). -/
theorem GetTotalPagesFromResponse_ceil (body : BitbucketServerPagination)
    (pageSize : Nat) (h : 0 < pageSize) :
    GetTotalPagesFromResponse (.ok body) pageSize =
      .ok ((body.size + pageSize - 1) / pageSize) := by
  simp [GetTotalPagesFromResponse, totalPages_eq_ceil body.size pageSize h]

/-- Witness for C3: `Size=250,PageSize=100` gives 3 pages, `Size=300`
gives 3, `Size=0` gives 0. -/
theorem GetTotalPagesFromResponse_ceil_witness :
    GetTotalPagesFromResponse (.ok ⟨[], 0, 250, 0, 0, "", false⟩) 100 = .ok 3 ∧
    GetTotalPagesFromResponse (.ok ⟨[], 0, 300, 0, 0, "", false⟩) 100 = .ok 3 ∧
    GetTotalPagesFromResponse (.ok ⟨[], 0, 0, 0, 0, "", false⟩) 100 = .ok 0 := by
  refine ⟨?_, ?_, ?_⟩ <;>
    · rw [GetTotalPagesFromResponse_ceil _ 100 (by decide)]
      rfl

/-- C9 (implicit): `decodeResponse` is defined on a nil response — it
returns the explicit "res is nil" error rather than dereferencing the
response. -/
theorem decodeResponse_nil_response (parse : String → Option α) :
    decodeResponse parse none = .error (.defaultNew "res is nil") := rfl

/-- C8: for every page descriptor, the base query builder `GetQuery`
succeeds and produces a query containing exactly `state=all`,
`page=<current page>` and `pagelen=<page size>`. -/
theorem GetQuery_exact_params (reqData : Pager) :
    ∃ q, GetQuery reqData = .ok q ∧
      q "state" = ["all"] ∧
      q "page" = [toString reqData.page] ∧
      q "pagelen" = [toString reqData.size] ∧
      ∀ k, k ≠ "state" → k ≠ "page" → k ≠ "pagelen" → q k = [] := by
  refine ⟨_, rfl, ?_, ?_, ?_, ?_⟩
  · simp [UrlValues.set, UrlValues.empty]
  · simp [UrlValues.set, UrlValues.empty]
  · simp [UrlValues.set, UrlValues.empty]
  · intro k h1 h2 h3
    simp [UrlValues.set, UrlValues.empty, h1, h2, h3]

/-- Witness for C8 at page 3, page size 100: the three parameters are
set and an unrelated key is absent. -/
theorem GetQuery_exact_params_witness :
    ∃ q, GetQuery ⟨3, 100⟩ = .ok q ∧
      q "state" = ["all"] ∧ q "page" = ["3"] ∧ q "pagelen" = ["100"] ∧
      q "q" = [] := by
  obtain ⟨q, hq, h1, h2, h3, h4⟩ := GetQuery_exact_params ⟨3, 100⟩
  exact ⟨q, hq, h1, h2, h3, h4 "q" (by decide) (by decide) (by decide)⟩

/-- C1 counterexample: with `IsIncremental = false` but a watermark
present (`Since = 2023-01-01T00:00:00Z`), the built incremental-variant
query does contain the `q` filter parameter, contradicting the claim
that no `q` parameter is set when `IsIncremental=false`. -/
theorem GetQueryCreatedAndUpdated_sets_q_without_incremental :
    ∃ q, GetQueryCreatedAndUpdated "values.x" ⟨false, some 1672531200⟩ ⟨1, 100⟩ = .ok q ∧
      q "q" = ["updated_on>=2023-01-01T00:00:00Z"] := by
  refine ⟨_, rfl, ?_⟩
  decide

/-- C1 amended: the incremental query-builder variant sets
`q=updated_on>=<RFC3339 watermark>` if and only if a watermark (`Since`)
exists, regardless of `IsIncremental`; when `Since=nil` the built query
contains no `q` parameter, while `sort=created_on` and `fields` are
always set. -/
theorem GetQueryCreatedAndUpdated_q_iff_since (fields : String)
    (st : ApiCollectorStateManager) (reqData : Pager) :
    ∃ q, GetQueryCreatedAndUpdated fields st reqData = .ok q ∧
      q "sort" = ["created_on"] ∧
      q "fields" = [fields] ∧
      q "q" = (match st.since with
        | some t => ["updated_on>=" ++ formatRFC3339 t]
        | none => []) := by
  obtain ⟨inc, since⟩ := st
  cases since with
  | none =>
    refine ⟨_, rfl, ?_, ?_, ?_⟩ <;> simp [UrlValues.set, UrlValues.empty]
  | some t =>
    refine ⟨_, rfl, ?_, ?_, ?_⟩ <;> simp [UrlValues.set, UrlValues.empty]

/-- C2: for every non-success HTTP status, the classification built from
`ignoreHTTPStatus404` maps 401 to the fatal, user-actionable
authentication error, 404 to the ignore-and-continue (resource-absent)
sentinel, and every other non-success status to the generic propagated
request failure. -/
theorem classifyStatus_nonsuccess (s : Nat) (h : ¬ successStatus s) :
    classifyStatus s =
      if s = 401 then
        some (.unauthorized "authentication failed, please check your AccessToken")
      else if s = 404 then some .ignoreAndContinue
      else some (.generic s) := by
  unfold classifyStatus ignoreHTTPStatus404
  by_cases h1 : s = 401 <;> by_cases h2 : s = 404 <;> simp [h1, h2, h]

/-- Witness for C2 at statuses 401, 404 and 500 (a 5xx). -/
theorem classifyStatus_nonsuccess_witness :
    ¬ successStatus 401 ∧ ¬ successStatus 404 ∧ ¬ successStatus 500 ∧
    classifyStatus 401 =
      some (.unauthorized "authentication failed, please check your AccessToken") ∧
    classifyStatus 404 = some .ignoreAndContinue ∧
    classifyStatus 500 = some (.generic 500) := by
  refine ⟨by decide, by decide, by decide, ?_, ?_, ?_⟩
  · simpa using classifyStatus_nonsuccess 401 (by decide)
  · simpa using classifyStatus_nonsuccess 404 (by decide)
  · simpa using classifyStatus_nonsuccess 500 (by decide)

/-- C7: for every response whose body is unreadable or is malformed
JSON, `decodeResponse` returns a wrapped error carrying the originating
request URL (and, for JSON parse failures, the raw response body); the
failure is never reported as success. -/
theorem decodeResponse_failure_wrapping (parse : String → Option α) (r : HttpResponse) :
    (∀ e, r.body = .error e →
      decodeResponse parse (some r) =
        .error (.wrap ("error reading response from " ++ r.url))) ∧
    (∀ s, r.body = .ok s → parse s = none →
      decodeResponse parse (some r) =
        .error (.wrap ("error decoding response from " ++ r.url ++
          ": raw response: " ++ s))) := by
  constructor
  · intro e he
    simp [decodeResponse, he]
  · intro s hs hp
    simp [decodeResponse, hs, hp]

/-- Witness for C7: an unreadable body and a malformed-JSON body, both
at request URL `http://api/x`. -/
theorem decodeResponse_failure_wrapping_witness :
    decodeResponse (fun s => some s) (some ⟨"http://api/x", .error "io failure"⟩) =
      .error (.wrap "error reading response from http://api/x") ∧
    decodeResponse (fun _ => (none : Option String)) (some ⟨"http://api/x", .ok "not json"⟩) =
      .error (.wrap "error decoding response from http://api/x: raw response: not json") := by
  constructor
  · exact (decodeResponse_failure_wrapping (fun s => some s)
      ⟨"http://api/x", .error "io failure"⟩).1 "io failure" rfl
  · exact (decodeResponse_failure_wrapping (fun _ => (none : Option String))
      ⟨"http://api/x", .ok "not json"⟩).2 "not json" rfl rfl

/-- C4: in cursor mode, when the decoded `Next` field is the empty
string, `GetNextPageCustomData` returns the distinguished
end-of-collection sentinel (a value distinct from every ordinary error
result); otherwise it parses `Next` as a URL and returns its `page`
query parameter as the next page token. -/
theorem GetNextPageCustomData_cursor_spec (parse : String → Option String)
    (res : Option HttpResponse) (next : String)
    (hdec : decodeResponse parse res = .ok next) :
    (∀ e, NextPageOutcome.finish ≠ .err e) ∧
    (next = "" → GetNextPageCustomData parse res = .finish) ∧
    (∀ u v rest, next ≠ "" → urlParse next = some u →
      queryLookup (parseQuery u.rawQuery) "page" = v :: rest →
      GetNextPageCustomData parse res = .token v) := by
  refine ⟨?_, ?_, ?_⟩
  · intro e he
    cases he
  · intro hnil
    simp [GetNextPageCustomData, hdec, hnil]
  · intro u v rest hne hu hq
    simp [GetNextPageCustomData, hdec, hne, hu, hq]

/-- Witness for C4: the empty cursor link yields the sentinel;
`next="https://host/path?page=7&other=x"` yields page token "7". -/
theorem GetNextPageCustomData_cursor_spec_witness :
    GetNextPageCustomData (fun s => some s) (some ⟨"u", .ok ""⟩) = .finish ∧
    GetNextPageCustomData (fun s => some s)
      (some ⟨"u", .ok "https://host/path?page=7&other=x"⟩) = .token "7" := by
  constructor
  · exact (GetNextPageCustomData_cursor_spec (fun s => some s)
      (some ⟨"u", .ok ""⟩) "" rfl).2.1 rfl
  · exact (GetNextPageCustomData_cursor_spec (fun s => some s)
      (some ⟨"u", .ok "https://host/path?page=7&other=x"⟩)
      "https://host/path?page=7&other=x" rfl).2.2 ⟨"page=7&other=x"⟩ "7" []
      (by decide) (by decide) (by decide)

/-- C10 (implicit): for a successfully decoded non-empty `Next` value
that parses as a URL, `GetNextPageCustomData` hits the panic of the
unguarded index `u.Query()[page][0]` exactly when the URL's query
string has no `page` parameter; under the precondition that at least
one `page` value exists (and only then) the panic branch is
unreachable. -/
theorem GetNextPageCustomData_panic_iff (parse : String → Option String)
    (res : Option HttpResponse) (next : String)
    (hdec : decodeResponse parse res = .ok next) (hne : next ≠ "")
    (u : ParsedUrl) (hu : urlParse next = some u) :
    GetNextPageCustomData parse res = .panicked ↔
      queryLookup (parseQuery u.rawQuery) "page" = [] := by
  simp only [GetNextPageCustomData, hdec, if_neg hne, hu]
  cases hq : queryLookup (parseQuery u.rawQuery) "page" with
  | nil => simp
  | cons v rest => simp

/-- Witness for C10: a next link without a `page` query parameter makes
the collector panic. -/
theorem GetNextPageCustomData_panic_iff_witness :
    GetNextPageCustomData (fun s => some s)
      (some ⟨"u", .ok "https://host/path?x=1"⟩) = .panicked := by
  exact (GetNextPageCustomData_panic_iff (fun s => some s)
    (some ⟨"u", .ok "https://host/path?x=1"⟩) "https://host/path?x=1" rfl
    (by decide) ⟨"x=1"⟩ (by decide)).mpr (by decide)

/-- Runs of a scoped iterator query decompose into the scope filter
followed by the incremental filter, then the projection. -/
theorem runQuery_scoped (sel tbl sql : String) (params : BitbucketServerApiParams)
    (st : ApiCollectorStateManager) (db : List ToolRow) :
    runQuery ([.select sel, .fromTable tbl,
        .whereScope sql params.fullName params.connectionId] ++ incrementalClauses st) db =
      ((db.filter (inScope params)).filter (rowMatches (incrementalClauses st))).map
        (fun r => r.payload) := by
  unfold runQuery
  congr 1
  rw [List.filter_filter]
  apply List.filter_congr
  intro r _
  simp [rowMatches, List.all_append, clauseHolds, inScope, Bool.and_comm,
    Bool.and_assoc, Bool.and_left_comm]

/-- Decomposition of the branches iterator query. -/
theorem runQuery_branches (params : BitbucketServerApiParams)
    (st : ApiCollectorStateManager) (db : List ToolRow) :
    runQuery (GetBranchesIteratorClauses params st) db =
      ((db.filter (inScope params)).filter (rowMatches (incrementalClauses st))).map
        (fun r => r.payload) :=
  runQuery_scoped "bb.branch" "_tool_bitbucket_server_branches bb"
    "bb.repo_id = ? and bb.connection_id = ?" params st db

/-- Decomposition of the commits iterator query. -/
theorem runQuery_commits (params : BitbucketServerApiParams)
    (st : ApiCollectorStateManager) (db : List ToolRow) :
    runQuery (GetCommitsIteratorClauses params st) db =
      ((db.filter (inScope params)).filter (rowMatches (incrementalClauses st))).map
        (fun r => r.payload) :=
  runQuery_scoped "bc.commit_sha" "_tool_bitbucket_server_commits bc"
    "bc.repo_id = ? and bc.connection_id = ?" params st db

/-- Decomposition of the pull-requests iterator query. -/
theorem runQuery_pullRequests (params : BitbucketServerApiParams)
    (st : ApiCollectorStateManager) (db : List ToolRow) :
    runQuery (GetPullRequestsIteratorClauses params st) db =
      ((db.filter (inScope params)).filter (rowMatches (incrementalClauses st))).map
        (fun r => r.payload) :=
  runQuery_scoped "bpr.bitbucket_id" "_tool_bitbucket_server_pull_requests bpr"
    "bpr.repo_id = ? and bpr.connection_id = ?" params st db

/-- C5: the three seed-iterator constructors add the incremental
restriction — rows whose `bitbucket_updated_at` strictly exceeds the
watermark — exactly when both `IsIncremental` is true and `Since` is
set; otherwise the base scope query is used unrestricted. -/
theorem iterators_incremental_exactly_when (params : BitbucketServerApiParams)
    (st : ApiCollectorStateManager) :
    (∀ t, st.isIncremental = true → st.since = some t →
      GetBranchesIteratorClauses params st =
        GetBranchesIteratorClauses params ⟨false, none⟩ ++ [.whereUpdatedAfter t] ∧
      GetCommitsIteratorClauses params st =
        GetCommitsIteratorClauses params ⟨false, none⟩ ++ [.whereUpdatedAfter t] ∧
      GetPullRequestsIteratorClauses params st =
        GetPullRequestsIteratorClauses params ⟨false, none⟩ ++ [.whereUpdatedAfter t] ∧
      ∀ db, runQuery (GetBranchesIteratorClauses params st) db =
        ((db.filter (inScope params)).filter
          (fun r => t < r.bitbucketUpdatedAt)).map (fun r => r.payload)) ∧
    (st.isIncremental = false ∨ st.since = none →
      GetBranchesIteratorClauses params st =
        GetBranchesIteratorClauses params ⟨false, none⟩ ∧
      GetCommitsIteratorClauses params st =
        GetCommitsIteratorClauses params ⟨false, none⟩ ∧
      GetPullRequestsIteratorClauses params st =
        GetPullRequestsIteratorClauses params ⟨false, none⟩ ∧
      ∀ db, runQuery (GetBranchesIteratorClauses params st) db =
        (db.filter (inScope params)).map (fun r => r.payload)) := by
  obtain ⟨inc, since⟩ := st
  constructor
  · intro t hinc hs
    replace hinc : inc = true := hinc
    replace hs : since = some t := hs
    subst hinc hs
    refine ⟨rfl, rfl, rfl, ?_⟩
    intro db
    rw [runQuery_branches]
    congr 1
    apply List.filter_congr
    intro r _
    simp [incrementalClauses, rowMatches, clauseHolds]
  · intro hdisj
    have hincr : incrementalClauses ⟨inc, since⟩ = [] := by
      rcases hdisj with hf | hn
      · replace hf : inc = false := hf
        subst hf
        cases since <;> rfl
      · replace hn : since = none := hn
        subst hn
        cases inc <;> rfl
    have h0 : incrementalClauses ⟨false, none⟩ = [] := rfl
    refine ⟨?_, ?_, ?_, ?_⟩
    · simp [GetBranchesIteratorClauses, hincr, h0]
    · simp [GetCommitsIteratorClauses, hincr, h0]
    · simp [GetPullRequestsIteratorClauses, hincr, h0]
    · intro db
      rw [runQuery_branches, hincr]
      congr 1
      simp [rowMatches]

/-- Witness for C5: a concrete table where the incremental run keeps
only the row updated after the watermark and the non-incremental run
keeps every in-scope row. -/
theorem iterators_incremental_exactly_when_witness :
    runQuery (GetBranchesIteratorClauses ⟨1, "apache/dev"⟩ ⟨true, some 100⟩)
      [⟨"apache/dev", 1, 200, "new"⟩, ⟨"apache/dev", 1, 50, "old"⟩,
       ⟨"other", 1, 300, "x"⟩] = ["new"] ∧
    runQuery (GetBranchesIteratorClauses ⟨1, "apache/dev"⟩ ⟨false, some 100⟩)
      [⟨"apache/dev", 1, 200, "new"⟩, ⟨"apache/dev", 1, 50, "old"⟩,
       ⟨"other", 1, 300, "x"⟩] = ["new", "old"] := by
  constructor
  · rw [((iterators_incremental_exactly_when ⟨1, "apache/dev"⟩
      ⟨true, some 100⟩).1 100 rfl rfl).2.2.2]
    decide
  · rw [((iterators_incremental_exactly_when ⟨1, "apache/dev"⟩
      ⟨false, some 100⟩).2 (Or.inl rfl)).2.2.2]
    decide

/-- C6: every iterator query is restricted to rows matching exactly its
own `repo_id = FullName` and `connection_id = ConnectionId`: no row is
in the scope of two different `CollectionParams`, and the produced seed
sequence depends only on the in-scope rows, so a change to rows outside
the scope never changes it. -/
theorem iterators_scope_isolation (p1 p2 : BitbucketServerApiParams) (h : p1 ≠ p2) :
    (∀ r : ToolRow, ¬(inScope p1 r = true ∧ inScope p2 r = true)) ∧
    (∀ st db1 db2, db1.filter (inScope p1) = db2.filter (inScope p1) →
      runQuery (GetBranchesIteratorClauses p1 st) db1 =
        runQuery (GetBranchesIteratorClauses p1 st) db2 ∧
      runQuery (GetCommitsIteratorClauses p1 st) db1 =
        runQuery (GetCommitsIteratorClauses p1 st) db2 ∧
      runQuery (GetPullRequestsIteratorClauses p1 st) db1 =
        runQuery (GetPullRequestsIteratorClauses p1 st) db2) := by
  constructor
  · rintro r ⟨h1, h2⟩
    simp only [inScope, Bool.and_eq_true, decide_eq_true_eq] at h1 h2
    refine h ?_
    cases p1
    cases p2
    simp_all
  · intro st db1 db2 hagree
    refine ⟨?_, ?_, ?_⟩
    · rw [runQuery_branches, runQuery_branches, hagree]
    · rw [runQuery_commits, runQuery_commits, hagree]
    · rw [runQuery_pullRequests, runQuery_pullRequests, hagree]

/-- Witness for C6: appending a row belonging to a different scope
leaves the branches seed sequence unchanged. -/
theorem iterators_scope_isolation_witness :
    runQuery (GetBranchesIteratorClauses ⟨1, "a"⟩ ⟨false, none⟩)
      [⟨"a", 1, 0, "seed"⟩] =
    runQuery (GetBranchesIteratorClauses ⟨1, "a"⟩ ⟨false, none⟩)
      [⟨"a", 1, 0, "seed"⟩, ⟨"b", 2, 0, "other"⟩] :=
  ((iterators_scope_isolation ⟨1, "a"⟩ ⟨2, "b"⟩ (by decide)).2 ⟨false, none⟩
    [⟨"a", 1, 0, "seed"⟩] [⟨"a", 1, 0, "seed"⟩, ⟨"b", 2, 0, "other"⟩]
    (by decide)).1

end BitbucketServer
